import Mathlib

/-!
Verification development for the `gulp-mustache-layout` template-chain
renderer (`src/index.ts`).  The TypeScript source is shallowly embedded:
JavaScript objects become association lists with JavaScript assignment
semantics (`setKey` / `assignObj`), the file system becomes an explicit
map from path strings to read results, thrown exceptions become `Except`
values, and the Node path helpers are modelled for the posix,
already-normalized case.  Definitions keep the source's names where
possible (`LoadVars`, `effectiveVars`, `renderStep`, ...).
-/

namespace GulpMustacheLayout

/-- A JavaScript value as far as this plugin manipulates one: a primitive
(kept abstract as its string form) or an object, i.e. an ordered list of
key/value bindings with unique keys. -/
inductive JVal where
  | prim : String → JVal
  | obj : List (String × JVal) → JVal

/-- A JavaScript object: ordered bindings, constructed only through
`setKey`, so keys are unique and insertion order is preserved. -/
abbrev Obj := List (String × JVal)

/-- JavaScript property write `o[k] = v`: overwrites in place when the key
exists (keeping its position), appends otherwise. -/
def setKey : Obj → String → JVal → Obj
  | [], k, v => [(k, v)]
  | (k', v') :: rest, k, v =>
    if k' = k then (k', v) :: rest else (k', v') :: setKey rest k v

/-- JavaScript property read `o[k]`. -/
def getKey : Obj → String → Option JVal
  | [], _ => none
  | (k', v') :: rest, k => if k' = k then some v' else getKey rest k

/-- `Object.assign(target, src)`: every own key of `src` is written onto
`target`, in order. -/
def assignObj (target src : Obj) : Obj :=
  src.foldl (fun t kv => setKey t kv.1 kv.2) target

theorem getKey_setKey_self (o : Obj) (k : String) (v : JVal) :
    getKey (setKey o k v) k = some v := by
  induction o with
  | nil => simp [setKey, getKey]
  | cons hd tl ih =>
    by_cases h : hd.1 = k
    · simp [setKey, getKey, h]
    · simp [setKey, getKey, h, ih]

theorem getKey_setKey_ne (o : Obj) (k k' : String) (v : JVal) (h : k ≠ k') :
    getKey (setKey o k v) k' = getKey o k' := by
  induction o with
  | nil => simp [setKey, getKey, h]
  | cons hd tl ih =>
    by_cases hh : hd.1 = k
    · simp [setKey, getKey, hh, h]
    · simp only [setKey, getKey, if_neg hh]
      by_cases hk : hd.1 = k'
      · simp [hk]
      · simp [hk, ih]

/-- The decomposed form returned by Node's `Path.parse`: directory, base
name without extension, and extension (with its dot). -/
structure ParsedPath where
  dir : String
  name : String
  ext : String
deriving DecidableEq, Repr

/-- A template's origin (`TemplatePath` in the source): the full path
string and its parsed form. -/
structure TemplatePath where
  full : String
  info : ParsedPath
deriving DecidableEq, Repr

/-- Characters after the last `/` (Node `path.basename`, posix). -/
def baseNameCs (cs : List Char) : List Char :=
  (cs.reverse.takeWhile (fun c => c ≠ '/')).reverse

/-- Characters before the last `/` (Node `path.parse(...).dir` for
relative multi-component paths; the posix root edge case is out of the
inputs this development uses). -/
def dirNameCs (cs : List Char) : List Char :=
  ((cs.reverse.dropWhile (fun c => c ≠ '/')).drop 1).reverse

/-- Extension of a base name, dot included: from the last `.` unless that
dot is the first character (Node treats `.bashrc` as extensionless). -/
def extCs (base : List Char) : List Char :=
  let afterDot := base.reverse.takeWhile (fun c => c ≠ '.')
  let fromDot := base.reverse.dropWhile (fun c => c ≠ '.')
  if 2 ≤ fromDot.length then '.' :: afterDot.reverse else []

/-- Model of Node `Path.parse` for posix paths. -/
def parsePath (p : String) : ParsedPath :=
  let cs := p.data
  let base := baseNameCs cs
  let ext := extCs base
  { dir := String.mk (dirNameCs cs)
    name := String.mk (base.take (base.length - ext.length))
    ext := String.mk ext }

/-- Vinyl's `file.basename`: `path.basename(file.path)`. -/
def vinylBasename (p : String) : String := String.mk (baseNameCs p.data)

/-- Vinyl's `file.extname`: `path.extname(file.path)`. -/
def vinylExtname (p : String) : String := String.mk (extCs (baseNameCs p.data))

/-- `s.startsWith pre`, computed on the character lists (the library
function is not kernel-reducible). -/
def strStartsWith (s pre : String) : Bool := pre.data.isPrefixOf s.data

/-- Whether a posix path is absolute. -/
def isAbsolutePath (s : String) : Bool := strStartsWith s "/"

/-- Join two posix path segments. -/
def joinP (a b : String) : String :=
  if a = "" then b else if b = "" then a else a ++ "/" ++ b

/-- Model of Node `Path.resolve(dir, rel)` for the posix,
already-normalized case (no `.` or `..` segments): an absolute `rel`
stands alone, otherwise `rel` is placed under `dir`, itself placed under
the process working directory `cwd` when relative. -/
def pathResolve (cwd dir rel : String) : String :=
  if isAbsolutePath rel then rel
  else if isAbsolutePath dir then joinP dir rel
  else joinP (joinP cwd dir) rel

/-- Result of `FS.readFileSync`: contents, a not-found failure (`ENOENT`
code on the thrown error), or any other failure. -/
inductive FSResult where
  | ok : String → FSResult
  | enoent : FSResult
  | otherError : String → FSResult
deriving DecidableEq, Repr

/-- The file system, as the render-time reads observe it. -/
abbrev FS := String → FSResult

/-- The `PluginError`s the source constructs, one constructor per
`new PluginError(...)` site. -/
inductive PluginErr where
  | readError : String → PluginErr
  | varRead : String → PluginErr
  | varLoaderExec : String → PluginErr
  | missingYield : String → PluginErr
  | noDirectory : PluginErr
  | renderError : PluginErr
  | undefinedContents : PluginErr
  | streamsUnsupported : PluginErr
deriving DecidableEq, Repr

/-- A thrown JavaScript value as `renderStep`'s catch distinguishes them:
a `PluginError`, or any other error (say, one thrown by `readFileSync`
inside the partial loader, or by the template parser). -/
inductive JsError where
  | plugin : PluginErr → JsError
  | raw : String → JsError
deriving DecidableEq, Repr

/-- The pluggable auxiliary variable loader (`varLoader` option): a path
function over the template's parsed path and a parser; a parser that
throws is modelled as returning `none`. -/
structure VarLoader where
  path : ParsedPath → String
  parser : String → Option Obj

/-- All options of `GlobalOptions`/`RenderChainOptions`/
`RenderStreamOptions` in one record; an absent field is `none`, and
`scopeName` distinguishes absent (`none`), the explicit `null` disable
sentinel (`some none`), and an explicit name (`some (some s)`). -/
structure StreamOptions where
  varLoader : Option VarLoader := none
  vars : Option Obj := none
  scopeName : Option (Option String) := none
  outputName : Option String := none
  outputExtension : Option String := none

/-- `Template.LoadContents`: read the template file, wrapping any failure
in a `PluginError`. -/
def LoadContents (fs : FS) (path : TemplatePath) : Except PluginErr String :=
  match fs path.full with
  | .ok c => .ok c
  | .enoent => .error (.readError path.full)
  | .otherError _ => .error (.readError path.full)

/-- `Template.LoadVars`: with no loader configured, empty bindings; with
one, a missing auxiliary file yields empty bindings, any other read
failure is fatal, and a throwing parser is fatal. -/
def LoadVars (fs : FS) (path : TemplatePath) (options : StreamOptions) :
    Except PluginErr Obj :=
  match options.varLoader with
  | none => .ok []
  | some vl =>
    let varPath := vl.path path.info
    match fs varPath with
    | .enoent => .ok []
    | .otherError _ => .error (.varRead varPath)
    | .ok varContents =>
      match vl.parser varContents with
      | some x => .ok x
      | none => .error (.varLoaderExec varPath)

/-- The string form a mustache variable interpolation produces for a
bound value (primitives print themselves; this model prints objects as
empty, their exact print form being irrelevant here). -/
def jvalToStr : Option JVal → String
  | none => ""
  | some (.prim s) => s
  | some (.obj _) => ""

/-- Scan up to the first tag opener: `some (before, after)` when the
remaining characters split as `before ++ open ++ after` with `before`
opener-free. -/
def findOpen : List Char → Option (List Char × List Char)
  | [] => none
  | '{' :: '{' :: rest => some ([], rest)
  | c :: rest =>
    match findOpen rest with
    | none => none
    | some (b, a) => some (c :: b, a)

/-- Scan up to the first tag closer, symmetrically to `findOpen`. -/
def findClose : List Char → Option (List Char × List Char)
  | [] => none
  | '}' :: '}' :: rest => some ([], rest)
  | c :: rest =>
    match findClose rest with
    | none => none
    | some (b, a) => some (c :: b, a)

theorem findOpen_length : ∀ cs b a, findOpen cs = some (b, a) → a.length < cs.length := by
  intro cs
  induction cs using findOpen.induct with
  | case1 => intro b a h; simp [findOpen] at h
  | case2 rest =>
    intro b a h
    simp [findOpen] at h
    simp [← h.2]
    omega
  | case3 c rest hne hnone ih =>
    intro b a h
    rw [findOpen] at h
    · simp [hnone] at h
    · exact hne
  | case4 c rest hne b0 a0 hsome ih =>
    intro b a h
    rw [findOpen] at h
    · simp [hsome] at h
      have := ih b0 a0 hsome
      simp [← h.2]
      omega
    · exact hne

theorem findClose_length : ∀ cs b a, findClose cs = some (b, a) → a.length < cs.length := by
  intro cs
  induction cs using findClose.induct with
  | case1 => intro b a h; simp [findClose] at h
  | case2 rest =>
    intro b a h
    simp [findClose] at h
    simp [← h.2]
    omega
  | case3 c rest hne hnone ih =>
    intro b a h
    rw [findClose] at h
    · simp [hnone] at h
    · exact hne
  | case4 c rest hne b0 a0 hsome ih =>
    intro b a h
    rw [findClose] at h
    · simp [hsome] at h
      have := ih b0 a0 hsome
      simp [← h.2]
      omega
    · exact hne

/-- Expansion of one tag's content. Modelled from the spec: the external
template-expansion primitive (spec §6) substitutes variables and invokes
the partial resolver on `>`-tags; sections, comments and name trimming
are outside the model. -/
def tagExpand (b : Obj) (resolver : String → Except JsError String) :
    List Char → Except JsError (List Char)
  | '>' :: nameCs =>
    match resolver (String.mk nameCs) with
    | .ok s => .ok s.data
    | .error e => .error e
  | tag => .ok (jvalToStr (getKey b (String.mk tag))).data

/-- Modelled from the spec: the template-expansion primitive's main scan.
Literal text is copied, each `\x7b\x7btag\x7d\x7d` is expanded via
`tagExpand`, an unclosed tag is a parse error (a non-`PluginError`
throw, as the mustache library's would be). -/
def renderCs (b : Obj) (resolver : String → Except JsError String) :
    List Char → Except JsError (List Char)
  | cs =>
    match h1 : findOpen cs with
    | none => .ok cs
    | some (bef, af) =>
      match h2 : findClose af with
      | none => .error (.raw "Unclosed tag")
      | some (tag, rest) =>
        match tagExpand b resolver tag with
        | .error e => .error e
        | .ok ex =>
          match renderCs b resolver rest with
          | .error e => .error e
          | .ok tl => .ok (bef ++ ex ++ tl)
termination_by cs => cs.length
decreasing_by
  exact Nat.lt_trans (findClose_length af tag rest h2) (findOpen_length cs bef af h1)

/-- The partial name a tag references: one name for a `>`-tag, nothing
for any other tag. -/
def tagRefName : List Char → List String
  | '>' :: nameCs => [String.mk nameCs]
  | _ => []

/-- The names of the partial references a template's scan meets, in
order, stopping at a malformed (unclosed) tag. -/
def partRefs : List Char → List String
  | cs =>
    match h1 : findOpen cs with
    | none => []
    | some (_, af) =>
      match h2 : findClose af with
      | none => []
      | some (tag, rest) => tagRefName tag ++ partRefs rest
termination_by cs => cs.length
decreasing_by
  rename_i bef
  exact Nat.lt_trans (findClose_length af tag rest h2) (findOpen_length cs bef af h1)

/-- Whether every opened tag in the template is closed. -/
def wellFormed : List Char → Bool
  | cs =>
    match h1 : findOpen cs with
    | none => true
    | some (_, af) =>
      match h2 : findClose af with
      | none => false
      | some (_, rest) => wellFormed rest
termination_by cs => cs.length
decreasing_by
  rename_i bef tag
  exact Nat.lt_trans (findClose_length af tag rest h2) (findOpen_length cs bef af h1)

/-- `Mustache.render` as this development models it. -/
def mustacheRender (template : String) (b : Obj)
    (resolver : String → Except JsError String) : Except JsError String :=
  match renderCs b resolver template.data with
  | .ok cs => .ok (String.mk cs)
  | .error e => .error e

theorem tagRefName_other {c : Char} {rest : List Char} (h : c ≠ '>') :
    tagRefName (c :: rest) = [] := by
  unfold tagRefName
  split
  · rename_i heq
    injection heq with hc _
    exact absurd hc h
  · rfl

theorem tagExpand_other (b : Obj) (r : String → Except JsError String)
    {c : Char} {rest : List Char} (h : c ≠ '>') :
    tagExpand b r (c :: rest) =
      .ok (jvalToStr (getKey b (String.mk (c :: rest)))).data := by
  unfold tagExpand
  split
  · rename_i heq
    injection heq with hc _
    exact absurd hc h
  · rfl

theorem partRefs_none {cs : List Char} (h : findOpen cs = none) : partRefs cs = [] := by
  rw [partRefs]
  split
  · rfl
  · rename_i bef af h1
    rw [h] at h1
    cases h1

theorem partRefs_noclose {cs bef af : List Char} (h1 : findOpen cs = some (bef, af))
    (h2 : findClose af = none) : partRefs cs = [] := by
  rw [partRefs]
  split
  · rfl
  · rename_i bef' af' h1'
    rw [h1] at h1'
    injection h1' with h'
    injection h' with hb ha
    subst hb
    subst ha
    split
    · rfl
    · rename_i tag rest h2'
      rw [h2] at h2'
      cases h2'

theorem partRefs_tag {cs bef af tag rest : List Char}
    (h1 : findOpen cs = some (bef, af)) (h2 : findClose af = some (tag, rest)) :
    partRefs cs = tagRefName tag ++ partRefs rest := by
  rw [partRefs]
  split
  · rename_i h1'
    rw [h1] at h1'
    cases h1'
  · rename_i bef' af' h1'
    rw [h1] at h1'
    injection h1' with h'
    injection h' with hb ha
    subst hb
    subst ha
    split
    · rename_i h2'
      rw [h2] at h2'
      cases h2'
    · rename_i tag' rest' h2'
      rw [h2] at h2'
      injection h2' with h'
      injection h' with ht hr
      subst ht
      subst hr
      rfl

theorem renderCs_none (b : Obj) (r : String → Except JsError String)
    {cs : List Char} (h : findOpen cs = none) : renderCs b r cs = .ok cs := by
  rw [renderCs]
  split
  · rfl
  · rename_i bef af h1
    rw [h] at h1
    cases h1

theorem renderCs_tag (b : Obj) (r : String → Except JsError String)
    {cs bef af tag rest : List Char}
    (h1 : findOpen cs = some (bef, af)) (h2 : findClose af = some (tag, rest)) :
    renderCs b r cs = (match tagExpand b r tag with
      | .error e => .error e
      | .ok ex =>
        match renderCs b r rest with
        | .error e => .error e
        | .ok tl => .ok (bef ++ ex ++ tl)) := by
  rw [renderCs]
  split
  · rename_i h1'
    rw [h1] at h1'
    cases h1'
  · rename_i bef' af' h1'
    rw [h1] at h1'
    injection h1' with h'
    injection h' with hb ha
    subst hb
    subst ha
    split
    · rename_i h2'
      rw [h2] at h2'
      cases h2'
    · rename_i tag' rest' h2'
      rw [h2] at h2'
      injection h2' with h'
      injection h' with ht hr
      subst ht
      subst hr
      rfl

theorem renderCs_yield_error (b : Obj) (r : String → Except JsError String)
    (e : JsError) (he : r "yield" = .error e) :
    ∀ cs, "yield" ∈ partRefs cs →
      (∀ n, n ∈ partRefs cs → n ≠ "yield" → ∃ s, r n = .ok s) →
      renderCs b r cs = .error e := by
  intro cs
  induction cs using partRefs.induct with
  | case1 cs lcs h1 =>
    intro hmem hok
    rw [partRefs_none h1] at hmem
    cases hmem
  | case2 cs lcs bef af h1 h2 =>
    intro hmem hok
    rw [partRefs_noclose h1 h2] at hmem
    cases hmem
  | case3 cs lcs bef af h1 tag rest h2 ih =>
    intro hmem hok
    rw [partRefs_tag h1 h2] at hmem hok
    rw [renderCs_tag b r h1 h2]
    have step : ∀ hmem' : "yield" ∈ partRefs rest, renderCs b r rest = .error e := by
      intro hmem'
      refine ih hmem' ?_
      intro n hn hne
      exact hok n (by simp [hn]) hne
    match tag with
    | '>' :: nameCs =>
      by_cases hy : String.mk nameCs = "yield"
      · simp only [tagExpand, hy, he]
      · have hmem' : "yield" ∈ partRefs rest := by
          rw [tagRefName] at hmem
          simp only [List.mem_append, List.mem_singleton] at hmem
          rcases hmem with h | h
          · exact absurd h.symm hy
          · exact h
        obtain ⟨s, hs⟩ := hok (String.mk nameCs) (by simp [tagRefName]) hy
        simp only [tagExpand, hs]
        rw [step hmem']
    | [] =>
      have hmem' : "yield" ∈ partRefs rest := by
        simpa [tagRefName] using hmem
      simp only [tagExpand]
      rw [step hmem']
    | c :: nameCs =>
      by_cases hc : c = '>'
      · subst hc
        by_cases hy : String.mk nameCs = "yield"
        · simp only [tagExpand, hy, he]
        · have hmem' : "yield" ∈ partRefs rest := by
            rw [tagRefName] at hmem
            simp only [List.mem_append, List.mem_singleton] at hmem
            rcases hmem with h | h
            · exact absurd h.symm hy
            · exact h
          obtain ⟨s, hs⟩ := hok (String.mk nameCs) (by simp [tagRefName]) hy
          simp only [tagExpand, hs]
          rw [step hmem']
      · have hmem' : "yield" ∈ partRefs rest := by
          rw [tagRefName_other hc] at hmem
          simpa using hmem
        rw [tagExpand_other b r hc]
        rw [step hmem']

theorem findOpen_cons_ne {c : Char} (hc : c ≠ '{') (xs : List Char) :
    findOpen (c :: xs) = match findOpen xs with
      | none => none
      | some (b, a) => some (c :: b, a) :=
  findOpen.eq_3 c xs (fun _ hc' _ => absurd hc' hc)

theorem findOpen_no_open {cs : List Char} (h : '{' ∉ cs) : findOpen cs = none := by
  induction cs with
  | nil => rfl
  | cons c tl ih =>
    have hc : c ≠ '{' := fun hh => h (by simp [hh])
    have htl : '{' ∉ tl := fun hh => h (by simp [hh])
    rw [findOpen_cons_ne hc, ih htl]

theorem findOpen_append {s1 : List Char} (h : '{' ∉ s1) (r : List Char) :
    findOpen (s1 ++ '{' :: '{' :: r) = some (s1, r) := by
  induction s1 with
  | nil => rfl
  | cons c tl ih =>
    have hc : c ≠ '{' := fun hh => h (by simp [hh])
    have htl : '{' ∉ tl := fun hh => h (by simp [hh])
    rw [List.cons_append, findOpen_cons_ne hc, ih htl]

theorem findClose_cons_ne {c : Char} (hc : c ≠ '}') (xs : List Char) :
    findClose (c :: xs) = match findClose xs with
      | none => none
      | some (b, a) => some (c :: b, a) :=
  findClose.eq_3 c xs (fun _ hc' _ => absurd hc' hc)

theorem findClose_append {a : List Char} (h : '}' ∉ a) (r : List Char) :
    findClose (a ++ '}' :: '}' :: r) = some (a, r) := by
  induction a with
  | nil => rfl
  | cons c tl ih =>
    have hc : c ≠ '}' := fun hh => h (by simp [hh])
    have htl : '}' ∉ tl := fun hh => h (by simp [hh])
    rw [List.cons_append, findClose_cons_ne hc, ih htl]

theorem wellFormed_none {cs : List Char} (h : findOpen cs = none) :
    wellFormed cs = true := by
  rw [wellFormed]
  split
  · rfl
  · rename_i bef af h1
    rw [h] at h1
    cases h1

theorem wellFormed_tag {cs bef af tag rest : List Char}
    (h1 : findOpen cs = some (bef, af)) (h2 : findClose af = some (tag, rest)) :
    wellFormed cs = wellFormed rest := by
  rw [wellFormed]
  split
  · rename_i h1'
    rw [h1] at h1'
    cases h1'
  · rename_i bef' af' h1'
    rw [h1] at h1'
    injection h1' with h'
    injection h' with hb ha
    subst hb
    subst ha
    split
    · rename_i h2'
      rw [h2] at h2'
      cases h2'
    · rename_i tag' rest' h2'
      rw [h2] at h2'
      injection h2' with h'
      injection h' with ht hr
      subst ht
      subst hr
      rfl

/-- The characters of the reserved `\x7b\x7b>yield\x7d\x7d` tag. -/
def yieldTagCs : List Char :=
  '{' :: '{' :: '>' :: 'y' :: 'i' :: 'e' :: 'l' :: 'd' :: '}' :: '}' :: []

theorem renderCs_yield_splice (b : Obj) (r : String → Except JsError String)
    {w : String} (hw : r "yield" = .ok w) {s1 s2 : List Char}
    (h1 : '{' ∉ s1) (h2 : '{' ∉ s2) :
    renderCs b r (s1 ++ yieldTagCs ++ s2) = .ok (s1 ++ w.data ++ s2) := by
  have hsplit : s1 ++ yieldTagCs ++ s2 =
      s1 ++ '{' :: '{' :: (('>' :: 'y' :: 'i' :: 'e' :: 'l' :: 'd' :: []) ++
        '}' :: '}' :: s2) := by
    simp [yieldTagCs]
  have e1 : findOpen (s1 ++ yieldTagCs ++ s2) =
      some (s1, ('>' :: 'y' :: 'i' :: 'e' :: 'l' :: 'd' :: []) ++ '}' :: '}' :: s2) := by
    rw [hsplit]
    exact findOpen_append h1 _
  have e2 : findClose (('>' :: 'y' :: 'i' :: 'e' :: 'l' :: 'd' :: []) ++ '}' :: '}' :: s2) =
      some ('>' :: 'y' :: 'i' :: 'e' :: 'l' :: 'd' :: [], s2) :=
    findClose_append (by decide) s2
  rw [renderCs_tag b r e1 e2]
  have hname : String.mk ('y' :: 'i' :: 'e' :: 'l' :: 'd' :: []) = "yield" := rfl
  simp only [tagExpand, hname, hw]
  rw [renderCs_none b r (findOpen_no_open h2)]

/-- The per-node fields of a `Template` (the source's
`TemplateInitializer` minus the parent link and the plugin handle). -/
structure TemplateData where
  path : TemplatePath
  templateContents : String
  loadedVars : Obj
  effectiveOptions : StreamOptions

/-- A `Template`: its own data plus the singly-linked `parent` chain
(`parent : Template | null` in the source). -/
inductive Template where
  | base : TemplateData → Template
  | wrapped : TemplateData → Template → Template

/-- The node's own data. -/
def Template.data : Template → TemplateData
  | .base d => d
  | .wrapped d _ => d

/-- The node's `parent` field. -/
def Template.parentOf : Template → Option Template
  | .base _ => none
  | .wrapped _ p => some p

/-- The data of the ancestors, in the order the `for` loops walk them
(immediate parent first, outermost last). -/
def Template.ancestorData : Template → List TemplateData
  | .base _ => []
  | .wrapped _ p => p.data :: p.ancestorData

/-- Number of nodes in the chain from this node to the outermost. -/
def Template.chainLength : Template → Nat
  | .base _ => 1
  | .wrapped _ p => 1 + p.chainLength

/-- `Template.mergedVars`:
`Object.assign(\x7b\x7d, this.loadedVars, this.effectiveOptions.vars)`. -/
def mergedVars (d : TemplateData) : Obj :=
  assignObj (assignObj [] d.loadedVars)
    (match d.effectiveOptions.vars with
     | some v => v
     | none => [])

/-- The scope key an ancestor exposes its bindings under, `none` when the
explicit `null` sentinel disables inheritance for it:
`p.effectiveOptions.scopeName ?? p.path.info.name` behind the
`!== null` guard. -/
def scopeKey (d : TemplateData) : Option String :=
  match d.effectiveOptions.scopeName with
  | some none => none
  | some (some s) => some s
  | none => some d.path.info.name

/-- One iteration of `effectiveVars`'s loop body for ancestor `d`. -/
def applyScope (res : Obj) (d : TemplateData) : Obj :=
  match scopeKey d with
  | none => res
  | some k => setKey res k (.obj (mergedVars d))

/-- The `for(let p = this.parent; p; p = p.parent)` walk of
`effectiveVars`, applied to this template and then its ancestors. -/
def inheritScopes : Template → Obj → Obj
  | .base d, res => applyScope res d
  | .wrapped d p, res => inheritScopes p (applyScope res d)

/-- `Template.effectiveVars`: the node's `mergedVars`, then one scope
assignment per ancestor walking outward. -/
def effectiveVars : Template → Obj
  | .base d => mergedVars d
  | .wrapped d p => inheritScopes p (mergedVars d)

/-- The `loadPartial` closure of `Template.renderStep`: resolves `yield`
to the wrapped contents (JavaScript truthiness: the empty string counts
as absent), any other name to the `.mustache` file resolved against the
template's own directory; a failing partial read throws the raw
`readFileSync` error, not a `PluginError`. -/
def loadPartial (fs : FS) (cwd : String) (tpath : Option TemplatePath)
    (yieldContents : Option String) (name : String) : Except JsError String :=
  if name = "yield" then
    match yieldContents with
    | some y =>
      if y = "" then
        .error (.plugin (.missingYield (match tpath with
          | some tp => tp.full
          | none => "template literal")))
      else .ok y
    | none =>
      .error (.plugin (.missingYield (match tpath with
        | some tp => tp.full
        | none => "template literal")))
  else
    match tpath with
    | some tp =>
      let p := pathResolve cwd tp.info.dir (name ++ ".mustache")
      match fs p with
      | .ok c => .ok c
      | .enoent => .error (.raw ("ENOENT: " ++ p))
      | .otherError m => .error (.raw m)
    | none => .error (.plugin .noDirectory)

/-- `Template.renderStep`: expand the node's contents against its
effective bindings with the `loadPartial` resolver; a thrown
`PluginError` is rethrown, anything else is wrapped. -/
def renderStep (fs : FS) (cwd : String) (t : Template)
    (yieldContents : Option String) : Except PluginErr String :=
  match mustacheRender t.data.templateContents (effectiveVars t)
      (loadPartial fs cwd (some t.data.path) yieldContents) with
  | .ok s => .ok s
  | .error (.plugin e) => .error e
  | .error (.raw _) => .error .renderError

theorem renderStep_eq_ok {fs : FS} {cwd : String} {t : Template}
    {yc : Option String} {out : List Char}
    (h : renderCs (effectiveVars t) (loadPartial fs cwd (some t.data.path) yc)
      t.data.templateContents.data = .ok out) :
    renderStep fs cwd t yc = .ok (String.mk out) := by
  unfold renderStep mustacheRender
  rw [h]

theorem renderStep_eq_plugin {fs : FS} {cwd : String} {t : Template}
    {yc : Option String} {e : PluginErr}
    (h : renderCs (effectiveVars t) (loadPartial fs cwd (some t.data.path) yc)
      t.data.templateContents.data = .error (.plugin e)) :
    renderStep fs cwd t yc = .error e := by
  unfold renderStep mustacheRender
  rw [h]

/-- `Template.Load` (the chain-building read of a layout file). -/
def Load (fs : FS) (parent : Option Template) (path : String)
    (effectiveOptions : StreamOptions) : Except PluginErr Template :=
  let pathObj : TemplatePath := { full := path, info := parsePath path }
  match LoadContents fs pathObj with
  | .error e => .error e
  | .ok c =>
    match LoadVars fs pathObj effectiveOptions with
    | .error e => .error e
    | .ok lv =>
      let d : TemplateData :=
        { path := pathObj, templateContents := c, loadedVars := lv
          effectiveOptions := effectiveOptions }
      .ok (match parent with
           | none => .base d
           | some p => .wrapped d p)

/-- `Template.FromVinyl`: the leaf node built from a pipeline entry; an
entry with falsy contents (absent, or the empty string) is refused. -/
def FromVinyl (fs : FS) (parent : Template) (inputContents : String)
    (fullPath : String) (pathInfo : ParsedPath) (effectiveOptions : StreamOptions) :
    Except PluginErr Template :=
  if inputContents = "" then .error .undefinedContents
  else
    let pathObj : TemplatePath := { full := fullPath, info := pathInfo }
    match LoadVars fs pathObj effectiveOptions with
    | .error e => .error e
    | .ok lv =>
      .ok (.wrapped
        { path := pathObj, templateContents := inputContents, loadedVars := lv
          effectiveOptions := effectiveOptions } parent)

/-- `Template.wrap`: a new node that copies the child's data and sets its
parent to the receiver. -/
def wrapT (outer child : Template) : Template :=
  .wrapped child.data outer

/-- `GulpMustacheLayout.load`: merge the plugin's global options under the
per-call options, then `Template.Load` with no parent. -/
def mergeOptions (a b : StreamOptions) : StreamOptions :=
  { varLoader := match b.varLoader with | some v => some v | none => a.varLoader
    vars := match b.vars with | some v => some v | none => a.vars
    scopeName := match b.scopeName with | some v => some v | none => a.scopeName
    outputName := match b.outputName with | some v => some v | none => a.outputName
    outputExtension := match b.outputExtension with
      | some v => some v
      | none => a.outputExtension }

/-- One chain-building step: `acc.wrap(GML.load(path, opts))`. -/
def loadWrapStep (fs : FS) (globalOptions : StreamOptions) (acc : Template)
    (spec : String × StreamOptions) : Except PluginErr Template :=
  match Load fs none spec.1 (mergeOptions globalOptions spec.2) with
  | .error e => .error e
  | .ok c => .ok (wrapT acc c)

/-- A chain built the way callers build one: one `load` for the outermost
layout, then one `wrap(load ...)` per further level, innermost last. -/
def buildChain (fs : FS) (globalOptions : StreamOptions)
    (first : String × StreamOptions) (rest : List (String × StreamOptions)) :
    Except PluginErr Template :=
  match Load fs none first.1 (mergeOptions globalOptions first.2) with
  | .error e => .error e
  | .ok t0 => rest.foldlM (loadWrapStep fs globalOptions) t0

/-- The `for(let t = this.parent; t; t = t.parent)` render loop of
`RenderStream._transform`, from a chain node outward, with the running
output fed to each step as its yield contents. -/
def renderLoop (fs : FS) (cwd : String) : Template → String → Except PluginErr String
  | t, out =>
    match renderStep fs cwd t (some out) with
    | .error e => .error e
    | .ok out' =>
      match t with
      | .base _ => .ok out'
      | .wrapped _ p => renderLoop fs cwd p out'

/-- The full render sequence for a leaf node: the leaf step with no yield
contents, then `renderLoop` over its ancestors. -/
def renderAll (fs : FS) (cwd : String) (leaf : Template) : Except PluginErr String :=
  match renderStep fs cwd leaf none with
  | .error e => .error e
  | .ok first =>
    match leaf.parentOf with
    | none => .ok first
    | some p => renderLoop fs cwd p first

/-- Like `renderLoop`, but recording every step's output. -/
def stepOutputsLoop (fs : FS) (cwd : String) : Template → String →
    Except PluginErr (List String)
  | t, out =>
    match renderStep fs cwd t (some out) with
    | .error e => .error e
    | .ok out' =>
      match t with
      | .base _ => .ok [out']
      | .wrapped _ p =>
        match stepOutputsLoop fs cwd p out' with
        | .error e => .error e
        | .ok l => .ok (out' :: l)

/-- Every expansion step's output during `renderAll`, leaf step first. -/
def stepOutputs (fs : FS) (cwd : String) (leaf : Template) :
    Except PluginErr (List String) :=
  match renderStep fs cwd leaf none with
  | .error e => .error e
  | .ok first =>
    match leaf.parentOf with
    | none => .ok [first]
    | some p =>
      match stepOutputsLoop fs cwd p first with
      | .error e => .error e
      | .ok l => .ok (first :: l)

/-- A Vinyl entry's contents: the null placeholder, a materialized
buffer, or a live stream. -/
inductive FileContents where
  | nullC : FileContents
  | buffer : String → FileContents
  | stream : FileContents
deriving DecidableEq, Repr

/-- A file-pipeline (Vinyl) entry: its logical path and contents;
`basename` and `extname` are Vinyl's derived accessors on `path`. -/
structure VinylF where
  path : String
  contents : FileContents
deriving DecidableEq, Repr

/-- What one `_transform` call does to one entry: the entries pushed
downstream, the entry object's final state, and the error emitted, if
any. -/
structure TransformResult where
  pushed : List VinylF
  final : VinylF
  emitted : Option PluginErr
deriving Repr

/-- `RenderStream._transform`: null entries pass through; stream entries
error; `_`-prefixed and non-`.mustache` entries are dropped untouched;
the rest are rendered through the whole chain, their contents and path
rewritten, and pushed. `chainParent` is the stream's `parent` template
and `options` its merged options. -/
def transformFile (fs : FS) (cwd : String) (chainParent : Template)
    (options : StreamOptions) (file : VinylF) : TransformResult :=
  match file.contents with
  | .nullC => { pushed := [file], final := file, emitted := none }
  | .stream => { pushed := [], final := file, emitted := some .streamsUnsupported }
  | .buffer s =>
    if strStartsWith (vinylBasename file.path) "_" then
      { pushed := [], final := file, emitted := none }
    else if vinylExtname file.path ≠ ".mustache" then
      { pushed := [], final := file, emitted := none }
    else
      let pathInfo := parsePath file.path
      match FromVinyl fs chainParent s file.path pathInfo options with
      | .error e => { pushed := [], final := file, emitted := some e }
      | .ok leafT =>
        match renderAll fs cwd leafT with
        | .error e => { pushed := [], final := file, emitted := some e }
        | .ok output =>
          let outFile : VinylF :=
            { path := pathInfo.dir ++ "/"
                ++ (match options.outputName with
                    | some n => n
                    | none => pathInfo.name)
                ++ (match options.outputExtension with
                    | some e => e
                    | none => ".htm")
              contents := .buffer output }
          { pushed := [outFile], final := outFile, emitted := none }

/-- `effectiveVars` as a fold over an explicit ancestor list. -/
def effectiveVarsList (own : TemplateData) (ancs : List TemplateData) : Obj :=
  ancs.foldl applyScope (mergedVars own)

/-- The last ancestor in walk order (i.e. the outermost one) whose scope
key is `k`. -/
def lastWithKey (k : String) : List TemplateData → Option TemplateData
  | [] => none
  | d :: rest =>
    match lastWithKey k rest with
    | some d' => some d'
    | none => if scopeKey d = some k then some d else none

/-- How many ancestors of a list expose scope key `k`. -/
def countKey (k : String) (ancs : List TemplateData) : Nat :=
  (ancs.filter (fun d => decide (scopeKey d = some k))).length

theorem inheritScopes_eq (t : Template) (res : Obj) :
    inheritScopes t res = (t.data :: t.ancestorData).foldl applyScope res := by
  induction t generalizing res with
  | base d => simp [inheritScopes, Template.data, Template.ancestorData]
  | wrapped d p ih => simp [inheritScopes, Template.data, Template.ancestorData, ih]

theorem effectiveVars_eq (t : Template) :
    effectiveVars t = effectiveVarsList t.data t.ancestorData := by
  cases t with
  | base d => rfl
  | wrapped d p =>
    simp [effectiveVars, effectiveVarsList, Template.data, Template.ancestorData,
      inheritScopes_eq]

theorem getKey_foldl_applyScope (ancs : List TemplateData) (init : Obj) (k : String) :
    getKey (ancs.foldl applyScope init) k =
      match lastWithKey k ancs with
      | some d => some (.obj (mergedVars d))
      | none => getKey init k := by
  induction ancs generalizing init with
  | nil => simp [lastWithKey]
  | cons d rest ih =>
    simp only [List.foldl_cons, lastWithKey]
    rw [ih]
    cases hrest : lastWithKey k rest with
    | some d' => simp
    | none =>
      cases hsk : scopeKey d with
      | none => simp [applyScope, hsk]
      | some k' =>
        by_cases hk : k' = k
        · subst hk
          simp [applyScope, hsk, getKey_setKey_self]
        · simp [applyScope, hsk, getKey_setKey_ne _ _ _ _ hk, hk]

theorem foldl_applyScope_filter (ancs : List TemplateData) (init : Obj) :
    ancs.foldl applyScope init =
      (ancs.filter (fun d => (scopeKey d).isSome)).foldl applyScope init := by
  induction ancs generalizing init with
  | nil => rfl
  | cons d rest ih =>
    simp only [List.foldl_cons, List.filter_cons]
    cases hsk : scopeKey d with
    | none =>
      have h1 : applyScope init d = init := by simp [applyScope, hsk]
      simp [hsk, h1, ih]
    | some k => simp [hsk, ih, List.foldl_cons]

/-- Shorthand for a `TemplatePath` whose parsed form comes from the path. -/
def mkTP (p : String) : TemplatePath :=
  { full := p, info := parsePath p }

/-- Leaf node fixture whose own merged vars bind `a`. -/
def c2LeafData : TemplateData :=
  { path := mkTP "src/pages/page.mustache", templateContents := "x", loadedVars := []
    effectiveOptions := { vars := some [("a", .prim "own")] } }

/-- Ancestor fixture whose explicit scope name is also `a`. -/
def c2ParentData : TemplateData :=
  { path := mkTP "src/layouts/outer.mustache", templateContents := "y"
    loadedVars := [("b", .prim "pv")]
    effectiveOptions := { scopeName := some (some "a") } }

/-- The two-node chain used to settle C2. -/
def c2Template : Template := .wrapped c2LeafData (.base c2ParentData)

/-- C2, counterexample: the node's own merged vars bind `a`, an ancestor's
scope key is also `a`, and the effective bindings expose the ancestor's
scope object at `a`, not the own-level value — the own-level value does
not take precedence as the claim states. -/
theorem claim_C2_cex :
    getKey (mergedVars c2Template.data) "a" = some (.prim "own") ∧
    getKey (effectiveVars c2Template) "a" = some (.obj (mergedVars c2ParentData)) ∧
    JVal.obj (mergedVars c2ParentData) ≠ JVal.prim "own" := by
  refine ⟨rfl, rfl, ?_⟩
  intro h
  exact JVal.noConfusion h

/-- C2 (amended): `effectiveVars(node)` is `mergedVars(node)` extended
with one scope binding per non-disabled ancestor, and whenever a key of
`mergedVars(node)` coincides with an ancestor's scope key, the
ancestor's scope object takes precedence over the own-level value (scope
keys are assigned after the merge of own vars, overwriting them); among
several same-named ancestors the outermost one's binding stands. -/
theorem claim_C2 (t : Template) :
    effectiveVars t = effectiveVarsList t.data t.ancestorData ∧
    ∀ k v d, getKey (mergedVars t.data) k = some v →
      lastWithKey k t.ancestorData = some d →
      getKey (effectiveVars t) k = some (.obj (mergedVars d)) := by
  refine ⟨effectiveVars_eq t, ?_⟩
  intro k v d hv hlast
  rw [effectiveVars_eq]
  unfold effectiveVarsList
  rw [getKey_foldl_applyScope]
  simp [hlast]

/-- Witness for C2 at the fixture chain. -/
theorem claim_C2_witness :
    getKey (effectiveVars c2Template) "a" = some (.obj (mergedVars c2ParentData)) :=
  (claim_C2 c2Template).2 "a" (.prim "own") c2ParentData rfl rfl

/-- Leaf fixture for C6. -/
def c6LeafData : TemplateData :=
  { path := mkTP "src/pages/post.mustache", templateContents := "z", loadedVars := []
    effectiveOptions := {} }

/-- Ancestor fixture whose scope name is the explicit `null` disable
sentinel. -/
def c6DisabledData : TemplateData :=
  { path := mkTP "src/layouts/mid.mustache", templateContents := ""
    loadedVars := [("x", .prim "1")]
    effectiveOptions := { scopeName := some none } }

/-- Ancestor fixture with no explicit scope name, whose file base name is
`outer`. -/
def c6OuterData : TemplateData :=
  { path := mkTP "src/layouts/outer.mustache", templateContents := ""
    loadedVars := [("y", .prim "2")]
    effectiveOptions := {} }

/-- The three-node chain used to witness C6. -/
def c6Template : Template :=
  .wrapped c6LeafData (.wrapped c6DisabledData (.base c6OuterData))

/-- C6: an ancestor disabled with the `null` sentinel contributes no
binding at all — the effective bindings equal the fold over the
ancestor list with disabled ancestors removed — while every other
ancestor (not shadowed by an outer same-keyed one) contributes its
merged vars under its scope key: its explicit scope name if given, else
its file base name without extension. -/
theorem claim_C6 (t : Template) :
    effectiveVars t = effectiveVarsList t.data
      (t.ancestorData.filter (fun d => (scopeKey d).isSome)) ∧
    ∀ d k, (d.effectiveOptions.scopeName = some (some k) ∨
        (d.effectiveOptions.scopeName = none ∧ k = d.path.info.name)) →
      lastWithKey k t.ancestorData = some d →
      getKey (effectiveVars t) k = some (.obj (mergedVars d)) := by
  constructor
  · rw [effectiveVars_eq]
    unfold effectiveVarsList
    exact foldl_applyScope_filter _ _
  · intro d k hk hlast
    rw [effectiveVars_eq]
    unfold effectiveVarsList
    rw [getKey_foldl_applyScope]
    simp [hlast]

/-- Witness for C6: the disabled ancestor drops out and the default-named
ancestor `outer.mustache` is exposed under the key `outer`. -/
theorem claim_C6_witness :
    effectiveVars c6Template = effectiveVarsList c6Template.data
      (c6Template.ancestorData.filter (fun d => (scopeKey d).isSome)) ∧
    getKey (effectiveVars c6Template) "outer" = some (.obj (mergedVars c6OuterData)) :=
  ⟨(claim_C6 c6Template).1,
   (claim_C6 c6Template).2 c6OuterData "outer" (Or.inr ⟨rfl, rfl⟩) rfl⟩

/-- Leaf fixture for C10. -/
def c10LeafData : TemplateData :=
  { path := mkTP "src/pages/post.mustache", templateContents := "z", loadedVars := []
    effectiveOptions := {} }

/-- Inner ancestor fixture with default scope key `shared`. -/
def c10InnerData : TemplateData :=
  { path := mkTP "a/shared.mustache", templateContents := ""
    loadedVars := [("from", .prim "inner")]
    effectiveOptions := {} }

/-- Outermost ancestor fixture, also with default scope key `shared`. -/
def c10OuterData : TemplateData :=
  { path := mkTP "b/shared.mustache", templateContents := ""
    loadedVars := [("from", .prim "outer")]
    effectiveOptions := {} }

/-- The chain with two ancestors sharing one scope key. -/
def c10Template : Template :=
  .wrapped c10LeafData (.wrapped c10InnerData (.base c10OuterData))

/-- C10: when two or more non-disabled ancestors resolve to the same
scope key, the effective bindings expose under that key the merged vars
of the outermost such ancestor (the last one the walk assigns, since the
walk goes from the innermost ancestor outward). -/
theorem claim_C10 (t : Template) (k : String) (d : TemplateData)
    (htwo : 2 ≤ countKey k t.ancestorData)
    (hlast : lastWithKey k t.ancestorData = some d) :
    getKey (effectiveVars t) k = some (.obj (mergedVars d)) := by
  rw [effectiveVars_eq]
  unfold effectiveVarsList
  rw [getKey_foldl_applyScope]
  simp [hlast]

/-- Witness for C10: two default-named `shared.mustache` ancestors; the
outermost one's bindings win. -/
theorem claim_C10_witness :
    getKey (effectiveVars c10Template) "shared" = some (.obj (mergedVars c10OuterData)) :=
  claim_C10 c10Template "shared" c10OuterData (by decide) rfl

/-- C7: for a template load with a configured auxiliary variable loader
(and a readable template file), a not-found auxiliary read yields a
loaded template with empty bindings and no error; any other auxiliary
read failure fails the load with the var-read error; and a throwing
parser fails the load with the loader-execution error. -/
theorem claim_C7 (fs : FS) (parent : Option Template) (path : String)
    (opts : StreamOptions) (vl : VarLoader) (c : String)
    (hvl : opts.varLoader = some vl)
    (hc : fs path = .ok c) :
    (fs (vl.path (parsePath path)) = .enoent →
      ∃ t, Load fs parent path opts = .ok t ∧ t.data.loadedVars = []) ∧
    (∀ m, fs (vl.path (parsePath path)) = .otherError m →
      Load fs parent path opts = .error (.varRead (vl.path (parsePath path)))) ∧
    (∀ vc, fs (vl.path (parsePath path)) = .ok vc → vl.parser vc = none →
      Load fs parent path opts = .error (.varLoaderExec (vl.path (parsePath path)))) := by
  refine ⟨?_, ?_, ?_⟩
  · intro he
    simp only [Load, LoadContents, hc, LoadVars, hvl, he]
    cases parent with
    | none => exact ⟨_, rfl, rfl⟩
    | some p => exact ⟨_, rfl, rfl⟩
  · intro m hm
    simp [Load, LoadContents, hc, LoadVars, hvl, hm]
  · intro vc hvc hp
    simp [Load, LoadContents, hc, LoadVars, hvl, hvc, hp]

/-- Auxiliary loader fixture: the var file sits next to the template with
a `.toml` extension; the parser chokes on the contents `bad`. -/
def c7Loader : VarLoader :=
  { path := fun info => info.name ++ ".toml"
    parser := fun s => if s = "bad" then none else some [("k", .prim s)] }

/-- Options fixture carrying `c7Loader`. -/
def c7Opts : StreamOptions := { varLoader := some c7Loader }

/-- File system where the auxiliary file is missing. -/
def c7FsEnoent : FS := fun p => if p = "tpl.mustache" then .ok "T" else .enoent

/-- File system where the auxiliary read fails for another reason. -/
def c7FsOther : FS := fun p =>
  if p = "tpl.mustache" then .ok "T"
  else if p = "tpl.toml" then .otherError "EACCES" else .enoent

/-- File system where the auxiliary file parses badly. -/
def c7FsParse : FS := fun p =>
  if p = "tpl.mustache" then .ok "T"
  else if p = "tpl.toml" then .ok "bad" else .enoent

/-- Witness for C7 on the three fixture file systems. -/
theorem claim_C7_witness :
    (∃ t, Load c7FsEnoent none "tpl.mustache" c7Opts = .ok t ∧
      t.data.loadedVars = []) ∧
    Load c7FsOther none "tpl.mustache" c7Opts = .error (.varRead "tpl.toml") ∧
    Load c7FsParse none "tpl.mustache" c7Opts = .error (.varLoaderExec "tpl.toml") :=
  ⟨(claim_C7 c7FsEnoent none "tpl.mustache" c7Opts c7Loader "T" rfl rfl).1 rfl,
   (claim_C7 c7FsOther none "tpl.mustache" c7Opts c7Loader "T" rfl rfl).2.1 "EACCES" rfl,
   (claim_C7 c7FsParse none "tpl.mustache" c7Opts c7Loader "T" rfl rfl).2.2 "bad" rfl rfl⟩

/-- C3: an entry with buffer contents whose base name starts with `_`
produces no output entry, leaves the entry object untouched, and raises
no error. -/
theorem claim_C3 (fs : FS) (cwd : String) (chain : Template)
    (opts : StreamOptions) (file : VinylF) (s : String)
    (hb : file.contents = .buffer s)
    (hu : strStartsWith (vinylBasename file.path) "_" = true) :
    transformFile fs cwd chain opts file =
      { pushed := [], final := file, emitted := none } := by
  simp [transformFile, hb, hu]

/-- A minimal one-node chain usable wherever a concrete chain is needed. -/
def anyChain : Template :=
  .base { path := mkTP "layout.mustache", templateContents := ""
          loadedVars := [], effectiveOptions := {} }

/-- An empty file system. -/
def emptyFs : FS := fun _ => .enoent

/-- Witness for C3: an `_`-prefixed partial source file passes through
the stream untouched and unpushed. -/
theorem claim_C3_witness :
    transformFile emptyFs "/" anyChain {}
        { path := "src/_part.mustache", contents := .buffer "b" } =
      { pushed := [], final := { path := "src/_part.mustache", contents := .buffer "b" }
        emitted := none } :=
  claim_C3 emptyFs "/" anyChain {}
    { path := "src/_part.mustache", contents := .buffer "b" } "b" rfl rfl

/-- C8: the transform is a function of the entry's path and contents and
the (unmodified) chain and file system: two byte-identical entries
produce identical results, in particular byte-identical output. -/
theorem claim_C8 (fs : FS) (cwd : String) (chain : Template) (opts : StreamOptions)
    (f1 f2 : VinylF) (hpath : f1.path = f2.path) (hc : f1.contents = f2.contents) :
    transformFile fs cwd chain opts f1 = transformFile fs cwd chain opts f2 := by
  cases f1
  cases f2
  cases hpath
  cases hc
  rfl

/-- First copy of the C8 entry. -/
def c8FileA : VinylF := { path := "page.mustache", contents := .buffer "hello" }

/-- Second, separately constructed copy of the C8 entry. -/
def c8FileB : VinylF := { path := "page.mustache", contents := .buffer "hello" }

/-- Witness for C8 at two separately built but byte-identical entries. -/
theorem claim_C8_witness :
    transformFile emptyFs "/" anyChain {} c8FileA =
      transformFile emptyFs "/" anyChain {} c8FileB :=
  claim_C8 emptyFs "/" anyChain {} c8FileA c8FileB rfl rfl

/-- The template-path fixture for C1: a layout below `site/layouts`. -/
def c1TP : TemplatePath := mkTP "site/layouts/main.mustache"

/-- File system fixture for C1: a `header.mustache` exists both next to
the process working directory and next to the template, with different
contents. -/
def c1Fs : FS := fun p =>
  if p = "/proj/header.mustache" then .ok "W"
  else if p = "/proj/site/layouts/header.mustache" then .ok "T"
  else .enoent

/-- C1, evaluation at the failing input: requesting the bare partial
`header` (not `yield`, not `./`-prefixed) from a template in
`site/layouts` with working directory `/proj` reads the file next to the
template (`/proj/site/layouts/header.mustache`, contents `T`), not the
file resolved against the working directory (`/proj/header.mustache`,
contents `W`) as the claim and the README state. -/
theorem claim_C1_eval :
    loadPartial c1Fs "/proj" (some c1TP) none "header" = .ok "T" ∧
    c1Fs (joinP "/proj" ("header" ++ ".mustache")) = .ok "W" ∧
    pathResolve "/proj" c1TP.info.dir ("header" ++ ".mustache") =
      "/proj/site/layouts/header.mustache" :=
  ⟨rfl, rfl, rfl⟩

theorem loadPartial_empty (fs : FS) (cwd : String) (p : Option TemplatePath) :
    loadPartial fs cwd p (some "") = loadPartial fs cwd p none := by
  funext n
  unfold loadPartial
  by_cases h : n = "yield" <;> simp [h]

/-- C5: a render step of a template whose (well-formed) body references
the reserved partial `yield`, with every other referenced partial
resolvable, fails with the missing-yield error when no wrapped content is
supplied; and with nonempty wrapped content present, the output has
`yield` resolved to exactly that wrapped content. -/
theorem claim_C5 (fs : FS) (cwd : String) (t : Template) :
    (wellFormed t.data.templateContents.data = true →
      "yield" ∈ partRefs t.data.templateContents.data →
      (∀ n, n ∈ partRefs t.data.templateContents.data → n ≠ "yield" →
        ∃ s, loadPartial fs cwd (some t.data.path) none n = .ok s) →
      renderStep fs cwd t none = .error (.missingYield t.data.path.full)) ∧
    (∀ w s1 s2, w ≠ "" → '{' ∉ s1 → '{' ∉ s2 →
      t.data.templateContents.data = s1 ++ yieldTagCs ++ s2 →
      renderStep fs cwd t (some w) = .ok (String.mk (s1 ++ w.data ++ s2))) := by
  constructor
  · intro _ hmem hok
    have he : loadPartial fs cwd (some t.data.path) none "yield" =
        .error (.plugin (.missingYield t.data.path.full)) := by
      simp [loadPartial]
    exact renderStep_eq_plugin
      (renderCs_yield_error (effectiveVars t) _ _ he _ hmem hok)
  · intro w s1 s2 hw h1 h2 hbody
    have hr : loadPartial fs cwd (some t.data.path) (some w) "yield" = .ok w := by
      simp [loadPartial, hw]
    refine renderStep_eq_ok ?_
    rw [hbody]
    exact renderCs_yield_splice (effectiveVars t) _ hr h1 h2

/-- Fixture for C5/C9: a template whose whole body is the yield tag. -/
def c5Data : TemplateData :=
  { path := mkTP "src/layouts/w.mustache", templateContents := String.mk yieldTagCs
    loadedVars := [], effectiveOptions := {} }

/-- The C5/C9 fixture template (standalone, no ancestors). -/
def c5Template : Template := .base c5Data

theorem c5_findOpen : findOpen yieldTagCs =
    some ([], '>' :: 'y' :: 'i' :: 'e' :: 'l' :: 'd' :: '}' :: '}' :: []) := rfl

theorem c5_findClose :
    findClose ('>' :: 'y' :: 'i' :: 'e' :: 'l' :: 'd' :: '}' :: '}' :: []) =
      some ('>' :: 'y' :: 'i' :: 'e' :: 'l' :: 'd' :: [], []) := rfl

theorem c5_wellFormed : wellFormed yieldTagCs = true := by
  rw [wellFormed_tag c5_findOpen c5_findClose]
  exact wellFormed_none rfl

theorem c5_partRefs : partRefs yieldTagCs = ["yield"] := by
  rw [partRefs_tag c5_findOpen c5_findClose,
    partRefs_none (show findOpen ([] : List Char) = none from rfl)]
  rfl

/-- Witness for C5: the fixture template fails standalone and splices
nonempty wrapped content. -/
theorem claim_C5_witness :
    renderStep emptyFs "/" c5Template none =
      .error (.missingYield "src/layouts/w.mustache") ∧
    renderStep emptyFs "/" c5Template (some "HI") = .ok "HI" := by
  constructor
  · refine (claim_C5 emptyFs "/" c5Template).1 c5_wellFormed ?_ ?_
    · show "yield" ∈ partRefs yieldTagCs
      rw [c5_partRefs]
      simp
    · intro n hn hne
      rw [show partRefs c5Template.data.templateContents.data = ["yield"] from
        c5_partRefs] at hn
      simp at hn
      exact absurd hn hne
  · exact (claim_C5 emptyFs "/" c5Template).2 "HI" [] []
      (by decide) (by simp) (by simp) rfl

/-- C9: a render step whose wrapped content is the empty string behaves
exactly as one with no wrapped content at all; in particular, on a
well-formed body referencing `yield` (whose other partials resolve) it
fails with the missing-yield error instead of substituting the empty
string. -/
theorem claim_C9 (fs : FS) (cwd : String) (t : Template) :
    renderStep fs cwd t (some "") = renderStep fs cwd t none ∧
    (wellFormed t.data.templateContents.data = true →
      "yield" ∈ partRefs t.data.templateContents.data →
      (∀ n, n ∈ partRefs t.data.templateContents.data → n ≠ "yield" →
        ∃ s, loadPartial fs cwd (some t.data.path) none n = .ok s) →
      renderStep fs cwd t (some "") = .error (.missingYield t.data.path.full)) := by
  have hsame : renderStep fs cwd t (some "") = renderStep fs cwd t none := by
    unfold renderStep
    rw [loadPartial_empty]
  refine ⟨hsame, ?_⟩
  intro _ hmem hok
  rw [hsame]
  have he : loadPartial fs cwd (some t.data.path) none "yield" =
      .error (.plugin (.missingYield t.data.path.full)) := by
    simp [loadPartial]
  exact renderStep_eq_plugin
    (renderCs_yield_error (effectiveVars t) _ _ he _ hmem hok)

/-- Witness for C9 at the C5 fixture template. -/
theorem claim_C9_witness :
    renderStep emptyFs "/" c5Template (some "") =
      renderStep emptyFs "/" c5Template none ∧
    renderStep emptyFs "/" c5Template (some "") =
      .error (.missingYield "src/layouts/w.mustache") := by
  refine ⟨(claim_C9 emptyFs "/" c5Template).1, ?_⟩
  refine (claim_C9 emptyFs "/" c5Template).2 c5_wellFormed ?_ ?_
  · show "yield" ∈ partRefs yieldTagCs
    rw [c5_partRefs]
    simp
  · intro n hn hne
    rw [show partRefs c5Template.data.templateContents.data = ["yield"] from
      c5_partRefs] at hn
    simp at hn
    exact absurd hn hne

/-- The chain's nodes from a given node outward, the node itself first. -/
def chainTemplates : Template → List Template
  | .base d => [.base d]
  | .wrapped d p => .wrapped d p :: chainTemplates p

theorem chainTemplates_length (t : Template) :
    (chainTemplates t).length = t.chainLength := by
  induction t with
  | base d => rfl
  | wrapped d p ih =>
    simp [chainTemplates, Template.chainLength, ih]
    omega

theorem chainTemplates_getD_zero (t : Template) (d : Template) :
    (chainTemplates t).getD 0 d = t := by
  cases t <;> rfl

theorem chainLength_pos (t : Template) : 1 ≤ t.chainLength := by
  cases t with
  | base d => exact le_refl 1
  | wrapped d p => simp [Template.chainLength]

theorem getD_irrel {α : Type} (l : List α) {i : Nat} (h : i < l.length) (d d' : α) :
    l.getD i d = l.getD i d' := by
  simp [List.getD_eq_getElem?_getD, List.getElem?_eq_getElem h]

theorem stepOutputsLoop_spec (fs : FS) (cwd : String) :
    ∀ (t : Template) (inp : String) (l : List String),
      stepOutputsLoop fs cwd t inp = .ok l →
      l.length = t.chainLength ∧
      renderStep fs cwd t (some inp) = .ok (l.getD 0 "") ∧
      (∀ i, i + 1 < l.length →
        renderStep fs cwd ((chainTemplates t).getD (i + 1) t) (some (l.getD i "")) =
          .ok (l.getD (i + 1) "")) ∧
      renderLoop fs cwd t inp = .ok (l.getD (l.length - 1) "") := by
  intro t
  induction t with
  | base d =>
    intro inp l h
    rw [stepOutputsLoop] at h
    cases hr : renderStep fs cwd (.base d) (some inp) with
    | error e =>
      rw [hr] at h
      cases h
    | ok out' =>
      rw [hr] at h
      injection h with h
      subst h
      refine ⟨rfl, ?_, ?_, ?_⟩
      · rfl
      · intro i hi
        simp at hi
      · rw [renderLoop, hr]
        rfl
  | wrapped d p ih =>
    intro inp l h
    rw [stepOutputsLoop] at h
    cases hr : renderStep fs cwd (.wrapped d p) (some inp) with
    | error e =>
      rw [hr] at h
      cases h
    | ok out' =>
      rw [hr] at h
      simp only [] at h
      cases hl : stepOutputsLoop fs cwd p out' with
      | error e =>
        rw [hl] at h
        cases h
      | ok l' =>
        rw [hl] at h
        injection h with h
        subst h
        obtain ⟨ih1, ih2, ih3, ih4⟩ := ih out' l' hl
        have hpos : 1 ≤ l'.length := ih1 ▸ chainLength_pos p
        refine ⟨?_, ?_, ?_, ?_⟩
        · simp [Template.chainLength, ih1]
          omega
        · simpa using hr
        · intro i hi
          cases i with
          | zero =>
            simp only [chainTemplates, List.getD_cons_succ, List.getD_cons_zero]
            rw [chainTemplates_getD_zero p]
            exact ih2
          | succ j =>
            simp only [List.length_cons] at hi
            have hj : j + 1 < l'.length := by omega
            simp only [chainTemplates, List.getD_cons_succ]
            rw [getD_irrel (chainTemplates p)
              (by rw [chainTemplates_length, ← ih1]; omega) (.wrapped d p) p]
            exact ih3 j hj
        · rw [renderLoop, hr]
          simp only []
          rw [ih4]
          have : (out' :: l').getD (l'.length + 1 - 1) "" = l'.getD (l'.length - 1) "" := by
            have h1 : l'.length + 1 - 1 = (l'.length - 1) + 1 := by omega
            rw [h1, List.getD_cons_succ]
          simp only [List.length_cons]
          rw [this]

theorem stepOutputs_spec (fs : FS) (cwd : String) (ld : TemplateData)
    (chain : Template) (outs : List String)
    (h : stepOutputs fs cwd (.wrapped ld chain) = .ok outs) :
    outs.length = chain.chainLength + 1 ∧
    renderStep fs cwd (.wrapped ld chain) none = .ok (outs.getD 0 "") ∧
    (∀ i, i + 1 < outs.length →
      renderStep fs cwd ((chainTemplates chain).getD i chain)
        (some (outs.getD i "")) = .ok (outs.getD (i + 1) "")) ∧
    renderAll fs cwd (.wrapped ld chain) = .ok (outs.getD (outs.length - 1) "") := by
  unfold stepOutputs at h
  cases hr : renderStep fs cwd (.wrapped ld chain) none with
  | error e =>
    rw [hr] at h
    cases h
  | ok first =>
    rw [hr] at h
    simp only [Template.parentOf] at h
    cases hl : stepOutputsLoop fs cwd chain first with
    | error e =>
      rw [hl] at h
      cases h
    | ok l =>
      rw [hl] at h
      injection h with h
      subst h
      obtain ⟨ih1, ih2, ih3, ih4⟩ := stepOutputsLoop_spec fs cwd chain first l hl
      have hpos : 1 ≤ l.length := ih1 ▸ chainLength_pos chain
      refine ⟨by simp [ih1], rfl, ?_, ?_⟩
      · intro i hi
        cases i with
        | zero =>
          simp only [List.getD_cons_succ, List.getD_cons_zero]
          rw [chainTemplates_getD_zero chain]
          exact ih2
        | succ j =>
          simp only [List.length_cons] at hi
          simp only [List.getD_cons_succ]
          exact ih3 j (by omega)
      · unfold renderAll
        rw [hr]
        simp only [Template.parentOf]
        rw [ih4]
        have h1 : (first :: l).length - 1 = (l.length - 1) + 1 := by
          simp only [List.length_cons]
          omega
        rw [h1, List.getD_cons_succ]

theorem Load_none_chainLength {fs : FS} {path : String} {opts : StreamOptions}
    {t : Template} (h : Load fs none path opts = .ok t) : t.chainLength = 1 := by
  simp only [Load] at h
  cases hc : LoadContents fs { full := path, info := parsePath path } with
  | error e =>
    rw [hc] at h
    cases h
  | ok c =>
    rw [hc] at h
    cases hl : LoadVars fs { full := path, info := parsePath path } opts with
    | error e =>
      rw [hl] at h
      cases h
    | ok lv =>
      rw [hl] at h
      injection h with h
      subst h
      rfl

theorem foldlM_wrap_length (fs : FS) (g : StreamOptions) :
    ∀ (rest : List (String × StreamOptions)) (t0 c : Template),
      rest.foldlM (loadWrapStep fs g) t0 = .ok c →
      c.chainLength = t0.chainLength + rest.length := by
  intro rest
  induction rest with
  | nil =>
    intro t0 c h
    simp only [List.foldlM_nil, pure, Except.pure] at h
    injection h with h
    subst h
    rfl
  | cons x xs ih =>
    intro t0 c h
    simp only [List.foldlM_cons] at h
    cases hload : Load fs none x.1 (mergeOptions g x.2) with
    | error e =>
      simp only [loadWrapStep, hload, Bind.bind, Except.bind] at h
      cases h
    | ok cc =>
      simp only [loadWrapStep, hload, Bind.bind, Except.bind] at h
      have := ih (wrapT t0 cc) c h
      simp only [wrapT, Template.chainLength] at this
      simp only [List.length_cons]
      omega

theorem buildChain_chainLength {fs : FS} {g : StreamOptions}
    {first : String × StreamOptions} {rest : List (String × StreamOptions)}
    {c : Template} (h : buildChain fs g first rest = .ok c) :
    c.chainLength = rest.length + 1 := by
  unfold buildChain at h
  cases hl : Load fs none first.1 (mergeOptions g first.2) with
  | error e =>
    rw [hl] at h
    cases h
  | ok t0 =>
    rw [hl] at h
    have h1 := foldlM_wrap_length fs g rest t0 c h
    rw [Load_none_chainLength hl] at h1
    omega

theorem FromVinyl_parent {fs : FS} {chain : Template} {s p : String}
    {info : ParsedPath} {opts : StreamOptions} {t : Template}
    (h : FromVinyl fs chain s p info opts = .ok t) : ∃ d, t = .wrapped d chain := by
  unfold FromVinyl at h
  by_cases hs : s = ""
  · rw [if_pos hs] at h
    cases h
  · rw [if_neg hs] at h
    simp only [] at h
    cases hl : LoadVars fs { full := p, info := info } opts with
    | error e =>
      rw [hl] at h
      cases h
    | ok lv =>
      rw [hl] at h
      injection h with h
      exact ⟨_, h.symm⟩

/-- The rewritten output entry an accepted render produces: directory
kept, base name and extension replaced by the configured ones (with
their defaults). -/
def outputFileFor (opts : StreamOptions) (pathInfo : ParsedPath) (out : String) : VinylF :=
  { path := pathInfo.dir ++ "/" ++ (opts.outputName).getD pathInfo.name
      ++ (opts.outputExtension).getD ".htm"
    contents := .buffer out }

theorem transformFile_accept {fs : FS} {cwd : String} {chain : Template}
    {opts : StreamOptions} {file : VinylF} {s : String} {leafT : Template}
    {out : String}
    (hb : file.contents = .buffer s)
    (hu : strStartsWith (vinylBasename file.path) "_" = false)
    (he : vinylExtname file.path = ".mustache")
    (hv : FromVinyl fs chain s file.path (parsePath file.path) opts = .ok leafT)
    (hr : renderAll fs cwd leafT = .ok out) :
    transformFile fs cwd chain opts file =
      { pushed := [outputFileFor opts (parsePath file.path) out]
        final := outputFileFor opts (parsePath file.path) out
        emitted := none } := by
  unfold transformFile
  rw [hb]
  simp only [hu, Bool.false_eq_true, if_false, he, ne_eq, not_true_eq_false,
    if_neg, hv, hr]
  cases hn : opts.outputName <;> cases hx : opts.outputExtension <;>
    simp [outputFileFor, Option.getD, hn, hx]

/-- C4: for a chain of depth `n` built via one `load` plus `(n-1)` `wrap`
calls, rendering an accepted leaf entry performs exactly `n+1` expansion
steps — the leaf first with no wrapped content, then each ancestor
outward with the previous step's output supplied as its wrapped (yield)
content — and the outermost step's output is the final rendered result
pushed for the entry. -/
theorem claim_C4 (fs : FS) (cwd : String) (g : StreamOptions)
    (first : String × StreamOptions) (rest : List (String × StreamOptions))
    (chain : Template) (file : VinylF) (s : String) (opts : StreamOptions)
    (leafT : Template) (outs : List String)
    (hchain : buildChain fs g first rest = .ok chain)
    (hb : file.contents = .buffer s)
    (hu : strStartsWith (vinylBasename file.path) "_" = false)
    (he : vinylExtname file.path = ".mustache")
    (hv : FromVinyl fs chain s file.path (parsePath file.path) opts = .ok leafT)
    (houts : stepOutputs fs cwd leafT = .ok outs) :
    outs.length = (rest.length + 1) + 1 ∧
    renderStep fs cwd leafT none = .ok (outs.getD 0 "") ∧
    (∀ i, i + 1 < outs.length →
      renderStep fs cwd ((chainTemplates chain).getD i chain)
        (some (outs.getD i "")) = .ok (outs.getD (i + 1) "")) ∧
    renderAll fs cwd leafT = .ok (outs.getD (outs.length - 1) "") ∧
    transformFile fs cwd chain opts file =
      { pushed := [outputFileFor opts (parsePath file.path)
          (outs.getD (outs.length - 1) "")]
        final := outputFileFor opts (parsePath file.path)
          (outs.getD (outs.length - 1) "")
        emitted := none } := by
  obtain ⟨ld, rfl⟩ := FromVinyl_parent hv
  obtain ⟨h1, h2, h3, h4⟩ := stepOutputs_spec fs cwd ld chain outs houts
  have hlen : chain.chainLength = rest.length + 1 := buildChain_chainLength hchain
  exact ⟨by rw [h1, hlen], h2, h3, h4, transformFile_accept hb hu he hv h4⟩

/-- Outermost fixture layout body `(\x7b\x7b>yield\x7d\x7d)`. -/
def c4ABody : String := String.mk ('(' :: (yieldTagCs ++ [')']))

/-- Middle fixture layout body `[\x7b\x7b>yield\x7d\x7d]`. -/
def c4BBody : String := String.mk ('[' :: (yieldTagCs ++ [']']))

/-- File system holding the two fixture layouts. -/
def fsC4 : FS := fun p =>
  if p = "a.mustache" then .ok c4ABody
  else if p = "b.mustache" then .ok c4BBody
  else .enoent

/-- Data of the loaded outermost layout. -/
def c4AData : TemplateData :=
  { path := mkTP "a.mustache", templateContents := c4ABody
    loadedVars := [], effectiveOptions := {} }

/-- Data of the loaded middle layout. -/
def c4BData : TemplateData :=
  { path := mkTP "b.mustache", templateContents := c4BBody
    loadedVars := [], effectiveOptions := {} }

/-- The two-level fixture chain `load(a).wrap(load(b))`. -/
def c4Chain : Template := .wrapped c4BData (.base c4AData)

/-- The incoming fixture pipeline entry. -/
def c4File : VinylF := { path := "post.mustache", contents := .buffer "hello" }

/-- Data of the leaf node built from the fixture entry. -/
def c4LeafData : TemplateData :=
  { path := mkTP "post.mustache", templateContents := "hello"
    loadedVars := [], effectiveOptions := {} }

/-- The leaf node with the chain as its parent. -/
def c4LeafT : Template := .wrapped c4LeafData c4Chain

theorem c4_w1 : renderStep fsC4 "/" c4LeafT none = .ok "hello" :=
  renderStep_eq_ok (renderCs_none _ _ (show findOpen "hello".data = none from rfl))

theorem c4_w2 : renderStep fsC4 "/" c4Chain (some "hello") = .ok "[hello]" :=
  renderStep_eq_ok (@renderCs_yield_splice _ _ "hello"
    (show loadPartial fsC4 "/" (some c4Chain.data.path) (some "hello") "yield" =
      .ok "hello" from rfl)
    ['['] [']'] (by decide) (by decide))

theorem c4_w3 : renderStep fsC4 "/" (.base c4AData) (some "[hello]") = .ok "([hello])" :=
  renderStep_eq_ok (@renderCs_yield_splice _ _ "[hello]"
    (show loadPartial fsC4 "/" (some c4AData.path) (some "[hello]") "yield" =
      .ok "[hello]" from rfl)
    ['('] [')'] (by decide) (by decide))

theorem c4_steps : stepOutputs fsC4 "/" c4LeafT = .ok ["hello", "[hello]", "([hello])"] := by
  have hl1 : stepOutputsLoop fsC4 "/" (.base c4AData) "[hello]" = .ok ["([hello])"] := by
    rw [stepOutputsLoop, c4_w3]
  have hl2 : stepOutputsLoop fsC4 "/" c4Chain "hello" = .ok ["[hello]", "([hello])"] := by
    rw [stepOutputsLoop, c4_w2]
    simp only [c4Chain]
    rw [hl1]
  unfold stepOutputs
  rw [c4_w1]
  simp only [c4LeafT, Template.parentOf]
  rw [hl2]

/-- Witness for C4: the depth-2 fixture chain renders the entry through
three expansion steps composing to `([hello])`. -/
theorem claim_C4_witness :
    renderAll fsC4 "/" c4LeafT = .ok "([hello])" ∧
    transformFile fsC4 "/" c4Chain {} c4File =
      { pushed := [outputFileFor {} (parsePath "post.mustache") "([hello])"]
        final := outputFileFor {} (parsePath "post.mustache") "([hello])"
        emitted := none } := by
  have h := claim_C4 fsC4 "/" {} ("a.mustache", {}) [("b.mustache", {})] c4Chain
    c4File "hello" {} c4LeafT ["hello", "[hello]", "([hello])"]
    rfl rfl rfl rfl rfl c4_steps
  exact ⟨h.2.2.2.1, h.2.2.2.2⟩

end GulpMustacheLayout
